import Mathlib

/-!
Verification development for the Ledgit table editor.

The first part embeds the Zustand sheet store (`src/stores/useSheetStore.ts`):
an in-memory table (columns + rows of string cells) with bounded undo/redo
history, dirty/save flags, and file load/clear/save transitions.  JavaScript
objects are modelled as ordered association lists (object spread with a
computed key updates in place or appends), arrays as lists, `Array.slice(-n)`
as keeping the last `n` elements, and `Date`s as abstract `Nat` timestamps
supplied by the environment.
-/

namespace Ledgit

/-- Column definition for a CSV sheet (`src/types/sheet.ts`). -/
structure Column where
  field : String
  header_name : String
  col_type : Option String
deriving Repr, DecidableEq

/-- A row maps column field names to cell values; modelled as an ordered
association list, matching JavaScript object key ordering. -/
abbrev Row := List (String × String)

/-- JavaScript `{ ...r, [field]: value }`: replace the value in place when the
key exists, otherwise append the key at the end. -/
def setField (r : Row) (field value : String) : Row :=
  if r.any (fun p => p.1 = field) then
    r.map (fun p => if p.1 = field then (field, value) else p)
  else
    r ++ [(field, value)]

/-- A deep copy of `{columns, rows}` at a point in time (`Snapshot`). -/
structure Snapshot where
  columns : List Column
  rows : List Row
deriving Repr, DecidableEq

/-- The sheet store state (`SheetState` minus the action closures). -/
structure SheetState where
  columns : List Column
  rows : List Row
  filePath : Option String
  isDirty : Bool
  isSaving : Bool
  lastSavedAt : Option Nat
  undoStack : List Snapshot
  redoStack : List Snapshot
deriving Repr, DecidableEq

/-- `MAX_UNDO` from `useSheetStore.ts`. -/
def MAX_UNDO : Nat := 100

/-- `takeSnapshot`: deep copy of the current columns and rows (shallow object
copies of pure values are identities in the model). -/
def takeSnapshot (columns : List Column) (rows : List Row) : Snapshot :=
  ⟨columns, rows⟩

/-- `[...undoStack, snapshot].slice(-MAX_UNDO)`: append and keep the last
`MAX_UNDO` entries. -/
def pushBounded (stack : List Snapshot) (snap : Snapshot) : List Snapshot :=
  let st := stack ++ [snap]
  st.drop (st.length - MAX_UNDO)

/-- `rows.map((r, i) => i === rowIndex ? { ...r, [field]: value } : r)`,
with the JavaScript index threaded explicitly (the grid may hand the store
any number, so the target index is an `Int`). -/
def updateRowsAux (rowIndex : Int) (field value : String) : Nat → List Row → List Row
  | _, [] => []
  | i, r :: rs =>
      (if (i : Int) = rowIndex then setField r field value else r) ::
        updateRowsAux rowIndex field value (i + 1) rs

/-- `updateCell(rowIndex, field, value)`. -/
def updateCell (s : SheetState) (rowIndex : Int) (field value : String) : SheetState :=
  let snapshot := takeSnapshot s.columns s.rows
  let newRows := updateRowsAux rowIndex field value 0 s.rows
  { s with rows := newRows, isDirty := true,
           undoStack := pushBounded s.undoStack snapshot, redoStack := [] }

/-- `splice(idx, 0, x)` with `idx` clamped to the array length, as in
JavaScript. -/
def spliceInsert (l : List α) (idx : Nat) (x : α) : List α :=
  l.take idx ++ x :: l.drop idx

/-- `addRow(atIndex?)`: insert an empty row (one empty cell per column). -/
def addRow (s : SheetState) (atIndex : Option Nat) : SheetState :=
  let snapshot := takeSnapshot s.columns s.rows
  let emptyRow : Row := s.columns.foldl (fun r c => setField r c.field "") []
  let idx := atIndex.getD s.rows.length
  { s with rows := spliceInsert s.rows idx emptyRow, isDirty := true,
           undoStack := pushBounded s.undoStack snapshot, redoStack := [] }

/-- `rows.filter((_, i) => i !== rowIndex)` with the index threaded. -/
def removeRowAux (rowIndex : Int) : Nat → List Row → List Row
  | _, [] => []
  | i, r :: rs =>
      if (i : Int) = rowIndex then removeRowAux rowIndex (i + 1) rs
      else r :: removeRowAux rowIndex (i + 1) rs

/-- `removeRow(rowIndex)`. -/
def removeRow (s : SheetState) (rowIndex : Int) : SheetState :=
  let snapshot := takeSnapshot s.columns s.rows
  { s with rows := removeRowAux rowIndex 0 s.rows, isDirty := true,
           undoStack := pushBounded s.undoStack snapshot, redoStack := [] }

/-- `splice(fromIndex, 1)` followed by `splice(toIndex, 0, moved)`, for an
in-range source index (the UI only hands the store in-range indices). -/
def jsMove (l : List α) (fromIdx toIdx : Nat) : List α :=
  match l.get? fromIdx with
  | none => l
  | some x =>
      let l' := l.eraseIdx fromIdx
      spliceInsert l' toIdx x

/-- `moveRow(fromIndex, toIndex)`: early return when the indices coincide. -/
def moveRow (s : SheetState) (fromIndex toIndex : Nat) : SheetState :=
  if fromIndex = toIndex then s
  else
    let snapshot := takeSnapshot s.columns s.rows
    { s with rows := jsMove s.rows fromIndex toIndex, isDirty := true,
             undoStack := pushBounded s.undoStack snapshot, redoStack := [] }

/-- `addColumn(column, atIndex?)`: insert the column and give every row an
empty cell for it. -/
def addColumn (s : SheetState) (column : Column) (atIndex : Option Nat) : SheetState :=
  let snapshot := takeSnapshot s.columns s.rows
  let idx := atIndex.getD s.columns.length
  let newColumns := spliceInsert s.columns idx column
  let newRows := s.rows.map (fun r => setField r column.field "")
  { s with columns := newColumns, rows := newRows, isDirty := true,
           undoStack := pushBounded s.undoStack snapshot, redoStack := [] }

/-- `moveColumn(fromIndex, toIndex)`: early return when the indices
coincide. -/
def moveColumn (s : SheetState) (fromIndex toIndex : Nat) : SheetState :=
  if fromIndex = toIndex then s
  else
    let snapshot := takeSnapshot s.columns s.rows
    { s with columns := jsMove s.columns fromIndex toIndex, isDirty := true,
             undoStack := pushBounded s.undoStack snapshot, redoStack := [] }

/-- `new Map(columns.map(c => [c.field, c])).get(f)`: the last entry with a
given key wins, as in a JavaScript `Map` built by repeated insertion. -/
def lookupColumn (columns : List Column) (f : String) : Option Column :=
  (columns.filter (fun c => c.field = f)).getLast?

/-- `reorderColumns(fieldOrder)`: rebuild the column list in the requested
order; bail out if a field is unknown (length mismatch) or the order is
unchanged (`JSON.stringify` comparison of the field arrays). -/
def reorderColumns (s : SheetState) (fieldOrder : List String) : SheetState :=
  let newColumns := fieldOrder.filterMap (lookupColumn s.columns)
  if newColumns.length ≠ s.columns.length then s
  else if fieldOrder = s.columns.map (fun c => c.field) then s
  else
    let snapshot := takeSnapshot s.columns s.rows
    { s with columns := newColumns, isDirty := true,
             undoStack := pushBounded s.undoStack snapshot, redoStack := [] }

/-- JavaScript `delete copy[field]` on an association-list object. -/
def deleteField (r : Row) (field : String) : Row :=
  r.filter (fun p => p.1 ≠ field)

/-- `removeColumn(field)`. -/
def removeColumn (s : SheetState) (field : String) : SheetState :=
  let snapshot := takeSnapshot s.columns s.rows
  let newColumns := s.columns.filter (fun c => c.field ≠ field)
  let newRows := s.rows.map (fun r => deleteField r field)
  { s with columns := newColumns, rows := newRows, isDirty := true,
           undoStack := pushBounded s.undoStack snapshot, redoStack := [] }

/-- `clearFile()`. -/
def clearFile (s : SheetState) : SheetState :=
  { s with columns := [], rows := [], filePath := none, isDirty := false,
           undoStack := [], redoStack := [] }

/-- Successful `loadFile(filePath)`: `readCsv` resolved with `data`. -/
def loadFileOk (s : SheetState) (columns : List Column) (rows : List Row)
    (filePath : String) : SheetState :=
  { s with columns := columns, rows := rows, filePath := some filePath,
           isDirty := false, undoStack := [], redoStack := [] }

/-- Outcome of the `writeCsv` IPC call awaited by `save()`: either it
resolves (at some timestamp used for `new Date()`) or it rejects. -/
inductive SaveOutcome where
  | ok (timestamp : Nat)
  | fail
deriving Repr, DecidableEq

/-- `save()`, run to completion: returns the final state and whether the
error was re-thrown to the caller.  With no open file it returns before
touching any flag; on success it clears `isDirty` and stamps `lastSavedAt`;
on failure it clears only `isSaving` and re-throws. -/
def save (s : SheetState) (outcome : SaveOutcome) : SheetState × Bool :=
  match s.filePath with
  | none => (s, false)
  | some _ =>
      let s₁ := { s with isSaving := true }
      match outcome with
      | .ok t => ({ s₁ with isDirty := false, isSaving := false, lastSavedAt := some t }, false)
      | .fail => ({ s₁ with isSaving := false }, true)

/-- `undo()`: no-op on an empty undo stack; otherwise push the current
table onto the redo stack, pop the newest undo entry and restore it. -/
def undo (s : SheetState) : SheetState :=
  match s.undoStack.getLast? with
  | none => s
  | some prev =>
      let snapshot := takeSnapshot s.columns s.rows
      { s with columns := prev.columns, rows := prev.rows, isDirty := true,
               undoStack := s.undoStack.dropLast,
               redoStack := s.redoStack ++ [snapshot] }

/-- `redo()`: symmetric to `undo()`. -/
def redo (s : SheetState) : SheetState :=
  match s.redoStack.getLast? with
  | none => s
  | some next =>
      let snapshot := takeSnapshot s.columns s.rows
      { s with columns := next.columns, rows := next.rows, isDirty := true,
               redoStack := s.redoStack.dropLast,
               undoStack := s.undoStack ++ [snapshot] }

/-- One store action together with its arguments (and, for the asynchronous
actions, the outcome of the awaited IPC call). -/
inductive Op where
  | updateCell (rowIndex : Int) (field value : String)
  | addRow (atIndex : Option Nat)
  | removeRow (rowIndex : Int)
  | moveRow (fromIndex toIndex : Nat)
  | addColumn (column : Column) (atIndex : Option Nat)
  | moveColumn (fromIndex toIndex : Nat)
  | reorderColumns (fieldOrder : List String)
  | removeColumn (field : String)
  | clearFile
  | loadFileOk (columns : List Column) (rows : List Row) (filePath : String)
  | loadFileFail
  | save (outcome : SaveOutcome)
  | undo
  | redo
deriving Repr

/-- Run one store action (a failed `loadFile` never reaches `set`, so it
leaves the state untouched; `save`'s re-thrown error is dropped here). -/
def applyOp (s : SheetState) : Op → SheetState
  | .updateCell i f v => updateCell s i f v
  | .addRow i => addRow s i
  | .removeRow i => removeRow s i
  | .moveRow i j => moveRow s i j
  | .addColumn c i => addColumn s c i
  | .moveColumn i j => moveColumn s i j
  | .reorderColumns fo => reorderColumns s fo
  | .removeColumn f => removeColumn s f
  | .clearFile => clearFile s
  | .loadFileOk cs rs p => loadFileOk s cs rs p
  | .loadFileFail => s
  | .save o => (save s o).1
  | .undo => undo s
  | .redo => redo s

/-- Run a sequence of store actions in order. -/
def applyOps (s : SheetState) (ops : List Op) : SheetState :=
  ops.foldl applyOp s

/-- Total history size: undo entries plus redo entries. -/
def histLen (s : SheetState) : Nat :=
  s.undoStack.length + s.redoStack.length

/-- Arguments of one `updateCell` edit. -/
structure CellEdit where
  rowIndex : Int
  field : String
  value : String
deriving Repr, DecidableEq

/-- Apply one cell edit through the store. -/
def applyEdit (s : SheetState) (e : CellEdit) : SheetState :=
  updateCell s e.rowIndex e.field e.value

/-- Apply a sequence of cell edits in order. -/
def applyEdits (s : SheetState) (es : List CellEdit) : SheetState :=
  es.foldl applyEdit s

/-- The snapshot `takeSnapshot` would record for the current table. -/
def curSnap (s : SheetState) : Snapshot :=
  takeSnapshot s.columns s.rows

/-- The pre-edit snapshots recorded while running `es` from `s`, oldest
first — exactly what the edits push onto the undo stack. -/
def snaps (s : SheetState) : List CellEdit → List Snapshot
  | [] => []
  | e :: es => curSnap s :: snaps (applyEdit s e) es

/-- `n` consecutive `undo()` calls. -/
def undoN : Nat → SheetState → SheetState
  | 0, s => s
  | n + 1, s => undoN n (undo s)

/-- `n` consecutive `redo()` calls. -/
def redoN : Nat → SheetState → SheetState
  | 0, s => s
  | n + 1, s => redoN n (redo s)

/-- Outcome of the `readCsv` issued by a reload. -/
inductive LoadOutcome where
  | ok (columns : List Column) (rows : List Row)
  | fail
deriving Repr

/-- The handler `useFileWatcher` registers for the Tauri `file-changed`
event: reload the file only when the event's path matches the currently
open file and there are no unsaved local changes; a reload failure is
swallowed by `.catch(() => {})`.  Returns the new state and whether a
reload was triggered. -/
def fileChanged (s : SheetState) (eventPath : String) (outcome : LoadOutcome) :
    SheetState × Bool :=
  match s.filePath with
  | none => (s, false)
  | some fp =>
      if eventPath = fp ∧ s.isDirty = false then
        match outcome with
        | .ok cs rs => (loadFileOk s cs rs fp, true)
        | .fail => (s, true)
      else (s, false)

/-- State relevant to the `useAutoSave` hook (both variants share the same
subscription/timer/save structure): the store flags it reads, whether a
debounce timeout is currently scheduled, and how many `writeCsv` calls are
in flight.  `clearTimeout` followed by `setTimeout` collapses to re-arming
the single pending-timer flag, since a cleared timeout can never fire. -/
structure AutoSaveSys where
  isDirty : Bool
  isSaving : Bool
  filePath : Option String
  timerPending : Bool
  savesInFlight : Nat
deriving Repr, DecidableEq

/-- The subscriber `useAutoSave` registers on the sheet store, run
synchronously after every store `set`: bail out unless the state is dirty
with an open file, otherwise clear any pending timeout and schedule a new
one. -/
def subscriberRun (w : AutoSaveSys) : AutoSaveSys :=
  if w.isDirty = true ∧ w.filePath.isSome then { w with timerPending := true }
  else w

/-- Events the JavaScript runtime can deliver to the hook: a dirty store
mutation, a scheduled timeout firing, and an in-flight save resolving or
rejecting. -/
inductive ASEvent where
  | mutate
  | timerFire
  | saveDone (ok : Bool)
deriving Repr, DecidableEq

/-- One event step.  Returns the new state and whether this step issued a
`save()` call.  A firing timer runs the debounce callback: it returns if no
file is open, otherwise calls `save()`, whose `set({isSaving: true})`
itself re-runs the subscriber before `writeCsv` goes into flight.  A
completing save runs `save()`'s continuation (success clears `isDirty`,
failure only clears `isSaving`), each again re-running the subscriber. -/
def asStep (w : AutoSaveSys) : ASEvent → AutoSaveSys × Bool
  | .mutate => (subscriberRun { w with isDirty := true }, false)
  | .timerFire =>
      if w.timerPending then
        let w1 := { w with timerPending := false }
        match w1.filePath with
        | none => (w1, false)
        | some _ =>
            let w2 := subscriberRun { w1 with isSaving := true }
            ({ w2 with savesInFlight := w2.savesInFlight + 1 }, true)
      else (w, false)
  | .saveDone ok =>
      if w.savesInFlight > 0 then
        let w1 := { w with savesInFlight := w.savesInFlight - 1 }
        if ok then (subscriberRun { w1 with isDirty := false, isSaving := false }, false)
        else (subscriberRun { w1 with isSaving := false }, false)
      else (w, false)

/-- Run a sequence of runtime events. -/
def runEvents (w : AutoSaveSys) (evs : List ASEvent) : AutoSaveSys :=
  evs.foldl (fun w e => (asStep w e).1) w

/-! ### The diff/merge engine

`compareCsv` and `threeWayMerge` in `src/services/diffService.ts` delegate
the alignment and merge algorithms to the third-party `daff` library, whose
implementation is not part of this repository (only the declaration file
`src/types/daff.d.ts` is).  The alignment, classification and merge rules
below are therefore modelled from the spec (§4.1–§4.3); `buildSummary` is
embedded from the source.  CSV parsing/serialization is external (§1), so
the pipeline is modelled at the level of already-parsed tables. -/

/-- TableModel (§3): ordered column identifiers and ordered rows of
string-valued cells, stored positionally as parsed from CSV; a row missing
trailing cells reads as empty strings. -/
structure Table where
  cols : List String
  rows : List (List String)
deriving Repr, DecidableEq

/-- Cell value of row `r` at column position `c`; empty string when the
row or cell is absent (§7: missing trailing cells normalize to `""`). -/
def cellAt (rows : List (List String)) (r c : Nat) : String :=
  (((rows.get? r).getD []).get? c).getD ""

/-- Cell value of table `t` at row `r`, column position `c`. -/
def cell (t : Table) (r c : Nat) : String :=
  cellAt t.rows r c

/-- Column identifier at position `c`. -/
def colName (t : Table) (c : Nat) : String :=
  (t.cols.get? c).getD ""

/-- One alignment entry (§3): `Matched(leftIndex, rightIndex)`,
`Inserted(rightIndex)` or `Deleted(leftIndex)`. -/
inductive AlignEntry where
  | matched (l r : Nat)
  | inserted (r : Nat)
  | deleted (l : Nat)
deriving Repr, DecidableEq

/-- Modelled from the spec (§4.1): a longest common subsequence of two key
sequences, matching ties in strict left-to-right first-available order.
Structural fuel (`xs.length + ys.length` suffices) keeps the classic
`O(n·m)` dynamic programming recursion structurally recursive. -/
def lcsFuel [DecidableEq α] : Nat → List α → List α → List α
  | 0, _, _ => []
  | _ + 1, [], _ => []
  | _ + 1, _ :: _, [] => []
  | fuel + 1, x :: xs, y :: ys =>
      if x = y then x :: lcsFuel fuel xs ys
      else
        let l1 := lcsFuel fuel (x :: xs) ys
        let l2 := lcsFuel fuel xs (y :: ys)
        if l2.length > l1.length then l2 else l1

/-- A longest common subsequence of `xs` and `ys`. -/
def lcs [DecidableEq α] (xs ys : List α) : List α :=
  lcsFuel (xs.length + ys.length) xs ys

/-- Modelled from the spec (§4.1): a stable LCS-style alignment of two key
sequences.  Equal heads are matched first-available; otherwise the side
whose remainder keeps the longer common subsequence is consumed as a
deletion/insertion.  `li`/`ri` track original indices; fuel as in
`lcsFuel`. -/
def alignFuel [DecidableEq α] : Nat → Nat → Nat → List α → List α → List AlignEntry
  | 0, _, _, _, _ => []
  | _ + 1, _, _, [], [] => []
  | fuel + 1, li, ri, [], _ :: ys => .inserted ri :: alignFuel fuel li (ri + 1) [] ys
  | fuel + 1, li, ri, _ :: xs, [] => .deleted li :: alignFuel fuel (li + 1) ri xs []
  | fuel + 1, li, ri, x :: xs, y :: ys =>
      if x = y then .matched li ri :: alignFuel fuel (li + 1) (ri + 1) xs ys
      else if (lcs xs (y :: ys)).length ≥ (lcs (x :: xs) ys).length then
        .deleted li :: alignFuel fuel (li + 1) ri xs (y :: ys)
      else
        .inserted ri :: alignFuel fuel li (ri + 1) (x :: xs) ys

/-- Alignment of two key sequences, reporting original indices. -/
def alignKeys [DecidableEq α] (xs ys : List α) : List AlignEntry :=
  alignFuel (xs.length + ys.length) 0 0 xs ys

/-- The `(leftIndex, rightIndex)` pairs of the `Matched` entries, in
order. -/
def matchedPairs (al : List AlignEntry) : List (Nat × Nat) :=
  al.filterMap fun e =>
    match e with
    | .matched l r => some (l, r)
    | _ => none

/-- First right index matched to left index `l` (alignments match each
index at most once). -/
def lookupMatch (ps : List (Nat × Nat)) (l : Nat) : Option Nat :=
  ps.findSome? fun p => if p.1 = l then some p.2 else none

/-- First left index matched to right index `r`. -/
def lookupBack (ps : List (Nat × Nat)) (r : Nat) : Option Nat :=
  ps.findSome? fun p => if p.2 = r then some p.1 else none

/-- Modelled from the spec (§4.1): the column alignment matches column
identifiers by equality, in relative order. -/
def colAlign (left right : Table) : List AlignEntry :=
  alignKeys left.cols right.cols

/-- Modelled from the spec (§4.1): a row's content key is the sequence of
its cell values at the given shared-column positions (a list of values is
the separator-free equivalent of concatenation with an unambiguous
separator); with disjoint column sets (no shared columns) row matching
degrades to whole-row text equality. -/
def rowKey (rows : List (List String)) (proj : List Nat) (r : Nat) : List String :=
  if proj.isEmpty then (rows.get? r).getD []
  else proj.map (cellAt rows r)

/-- Modelled from the spec (§4.1): align rows by content-key equality over
the shared columns. -/
def rowAlign (left right : Table) : List AlignEntry :=
  let shared := matchedPairs (colAlign left right)
  alignKeys
    ((List.range left.rows.length).map (rowKey left.rows (shared.map Prod.fst)))
    ((List.range right.rows.length).map (rowKey right.rows (shared.map Prod.snd)))

/-- A single cell that changed between two versions
(`src/types/diff.ts`). -/
structure ModifiedCell where
  row : Nat
  col : String
  oldValue : String
  newValue : String
deriving Repr, DecidableEq

/-- Structured representation of the differences between two CSV snapshots
(`src/types/diff.ts`). -/
structure StructuredDiff where
  addedRows : List Nat
  removedRows : List Nat
  modifiedCells : List ModifiedCell
  addedColumns : List String
  removedColumns : List String
deriving Repr, DecidableEq

/-- The spec's §4.2 DiffClassifier, for exhibiting the intended diff-row
numbering: walk the row alignment in order with a single position counter
(the entry's index); `Inserted`/`Deleted` entries report their position as
added/removed rows; `Matched` rows compare cells across `Matched` columns
only, a `ModifiedCell` per inequality, keyed by the unified position and
the right-side column identifier; column changes come directly from the
column alignment.  The source's actual classifier is
`extractStructuredDiff` below, which instead re-parses daff's rendered
highlight table — the approach §9 warns against. -/
def classify (left right : Table) : StructuredDiff :=
  let ca := colAlign left right
  let shared := matchedPairs ca
  let ra := rowAlign left right
  { addedRows := ra.enum.filterMap fun p =>
      match p.2 with
      | .inserted _ => some p.1
      | _ => none
    removedRows := ra.enum.filterMap fun p =>
      match p.2 with
      | .deleted _ => some p.1
      | _ => none
    modifiedCells := ra.enum.flatMap fun p =>
      match p.2 with
      | .matched l r =>
          shared.filterMap fun pc =>
            let ov := cell left l pc.1
            let nv := cell right r pc.2
            if ov ≠ nv then some ⟨p.1, colName right pc.2, ov, nv⟩ else none
      | _ => []
    addedColumns := ca.filterMap fun e =>
      match e with
      | .inserted r => some (colName right r)
      | _ => none
    removedColumns := ca.filterMap fun e =>
      match e with
      | .deleted l => some (colName left l)
      | _ => none }

/-- `buildSummary` (`src/services/diffService.ts`): join the non-zero
counts in fixed order, with a fixed sentinel for an all-zero diff. -/
def buildSummary (structured : StructuredDiff) : String :=
  let parts : List String :=
    (if structured.addedRows.length > 0 then
      [toString structured.addedRows.length ++ " row(s) added"] else []) ++
    (if structured.removedRows.length > 0 then
      [toString structured.removedRows.length ++ " row(s) removed"] else []) ++
    (if structured.modifiedCells.length > 0 then
      [toString structured.modifiedCells.length ++ " cell(s) modified"] else []) ++
    (if structured.addedColumns.length > 0 then
      [toString structured.addedColumns.length ++ " column(s) added"] else []) ++
    (if structured.removedColumns.length > 0 then
      [toString structured.removedColumns.length ++ " column(s) removed"] else [])
  if parts.length > 0 then String.intercalate ", " parts else "No changes detected"

/-- Index of the first occurrence of the two-character marker `->` in a
character list: `cellValue.indexOf('->')`, with `none` standing for the
JavaScript `-1`. -/
def arrowIdx : List Char → Option Nat
  | '-' :: '>' :: _ => some 0
  | _ :: cs => (arrowIdx cs).map (· + 1)
  | [] => none

/-- JavaScript `String.prototype.trim`: strip whitespace from both ends. -/
def jsTrim (s : String) : String :=
  String.mk (((s.data.dropWhile Char.isWhitespace).reverse.dropWhile
    Char.isWhitespace).reverse)

/-- ``String(headerRow[c] ?? `col_${c}`)``: the column label used by
`extractStructuredDiff`, falling back only when the header cell is absent
(an empty-string cell is kept, as `??` tests null/undefined). -/
def headerName (headerRow : List String) (c : Nat) : String :=
  (headerRow.get? c).getD ("col_" ++ toString c)

/-- `extractStructuredDiff` (`src/services/diffService.ts:26-85`): parse
daff's highlight table.  Row 0 is taken as the column-level action row and
scanned from column 1 for `+++`/`---` column markers; row 1 is taken as
the header row; rows from index 2 are data rows, numbered by a single
`dataRowIndex` counter starting at 0 and incremented for every highlight
row; `+++`/`---` actions report added/removed rows and `->` rows are
scanned for `old->new` cells, split at the first `->` and trimmed.  An
absent cell reads as `""` (`?? ''`). -/
def extractStructuredDiff (highlightData : List (List String)) : StructuredDiff :=
  let colActionRow := (highlightData.get? 0).getD []
  let headerRow := (highlightData.get? 1).getD []
  let addedColumns := (List.range' 1 (colActionRow.length - 1)).filterMap fun c =>
    if (colActionRow.get? c).getD "" = "+++" then some (headerName headerRow c) else none
  let removedColumns := (List.range' 1 (colActionRow.length - 1)).filterMap fun c =>
    if (colActionRow.get? c).getD "" = "---" then some (headerName headerRow c) else none
  let dataRows := List.range' 2 (highlightData.length - 2)
  let actionOf := fun (r : Nat) => (((highlightData.get? r).getD []).get? 0).getD ""
  let addedRows := dataRows.filterMap fun r =>
    if actionOf r = "+++" then some (r - 2) else none
  let removedRows := dataRows.filterMap fun r =>
    if actionOf r = "---" then some (r - 2) else none
  let modifiedCells := dataRows.flatMap fun r =>
    if actionOf r = "->" then
      let row := (highlightData.get? r).getD []
      (List.range' 1 (row.length - 1)).filterMap fun c =>
        let cellValue := (row.get? c).getD ""
        match arrowIdx cellValue.data with
        | none => none
        | some i => some ⟨r - 2, headerName headerRow c,
            jsTrim (String.mk (cellValue.data.take i)),
            jsTrim (String.mk (cellValue.data.drop (i + 2)))⟩
    else []
  { addedRows := addedRows, removedRows := removedRows,
    modifiedCells := modifiedCells, addedColumns := addedColumns,
    removedColumns := removedColumns }

/-- The in-src tail of `compareCsv` (`src/services/diffService.ts:115-147`):
the external daff `compareTables`/`TableDiff.hilite` produce the highlight
table; the source then extracts the structured diff from it and builds the
summary (the HTML rendering is presentation). -/
def compareCsv (highlightData : List (List String)) : StructuredDiff × String :=
  (extractStructuredDiff highlightData,
   buildSummary (extractStructuredDiff highlightData))

/-- A conflicted cell recorded by the merger (§3 `ConflictCell`, before any
resolution). -/
structure ConflictCell where
  position : Nat
  column : String
  baseValue : String
  oursValue : String
  theirsValue : String
deriving Repr, DecidableEq

/-- Modelled from the spec (§4.3): the per-cell reconciliation rule.
Returns the working value and whether the cell conflicts:
identical `ours`/`theirs` (including all-equal and convergent edits) keep
the value; only-theirs-changed adopts theirs; only-ours-changed keeps
ours; divergent double edits keep ours and flag a conflict. -/
def mergeCellValue (b o t : String) : String × Bool :=
  if o = t then (o, false)
  else if b = o then (t, false)
  else if b = t then (o, false)
  else (o, true)

/-- `g` applied at each position of a row, positions counted from the
accumulator index. -/
def mergeRowAux (g : Nat → String → String) : Nat → List String → List String
  | _, [] => []
  | c, v :: vs => g c v :: mergeRowAux g (c + 1) vs

/-- `f` applied at each cell position, row positions counted from the
accumulator index. -/
def mergeRowsAux (f : Nat → Nat → String → String) : Nat → List (List String) → List (List String)
  | _, [] => []
  | r, row :: rest => mergeRowAux (f r) 0 row :: mergeRowsAux f (r + 1) rest

/-- Modelled from the spec (§4.3): the reconciled working value for the
working-table cell `(oR, oC)` whose `ours` value is `v`, given the row and
column correspondences (the `Matched` pairs of the two base-side
alignments).  A cell of `ours` with no counterpart in `base` or `theirs`
keeps its value. -/
def cellMergeValue (rowsBO rowsBT colsBO colsBT : List (Nat × Nat))
    (base theirs : Table) (oR oC : Nat) (v : String) : String :=
  match lookupBack rowsBO oR, lookupBack colsBO oC with
  | some bR, some bC =>
      match lookupMatch rowsBT bR, lookupMatch colsBT bC with
      | some tR, some tC => (mergeCellValue (cell base bR bC) v (cell theirs tR tC)).1
      | _, _ => v
  | _, _ => v

/-- Modelled from the spec (§4.3): the conflict recorded, if any, for the
working-table cell `(oR, oC)`: one `ConflictCell` exactly when the cell is
present in both alignments relative to `base` and both sides changed it to
different values. -/
def cellConflict (rowsBO rowsBT colsBO colsBT : List (Nat × Nat))
    (base ours theirs : Table) (oR oC : Nat) : Option ConflictCell :=
  match lookupBack rowsBO oR, lookupBack colsBO oC with
  | some bR, some bC =>
      match lookupMatch rowsBT bR, lookupMatch colsBT bC with
      | some tR, some tC =>
          let bv := cell base bR bC
          let ov := cell ours oR oC
          let tv := cell theirs tR tC
          if (mergeCellValue bv ov tv).2 then
            some ⟨oR, colName ours oC, bv, ov, tv⟩
          else none
      | _, _ => none
  | _, _ => none

/-- Modelled from the spec (§4.3): the merge engine over given row and
column correspondences.  The working table starts as a copy of `ours`, so
structure follows `ours`; every cell is reconciled by `cellMergeValue`, and
the conflicts are collected walking the working table in order. -/
def mergerCore (rowsBO rowsBT colsBO colsBT : List (Nat × Nat))
    (base ours theirs : Table) : Table × List ConflictCell :=
  let mergedRows :=
    mergeRowsAux (cellMergeValue rowsBO rowsBT colsBO colsBT base theirs) 0 ours.rows
  let conflicts := (List.range ours.rows.length).flatMap fun oR =>
    (List.range ours.cols.length).filterMap fun oC =>
      cellConflict rowsBO rowsBT colsBO colsBT base ours theirs oR oC
  (⟨ours.cols, mergedRows⟩, conflicts)

/-- Modelled from the spec (§4.3): the three-way merger computes
`align(base, ours)` and `align(base, theirs)` independently and feeds
their `Matched` pairs to the merge engine. -/
def mergerApply (base ours theirs : Table) : Table × List ConflictCell :=
  mergerCore
    (matchedPairs (rowAlign base ours)) (matchedPairs (rowAlign base theirs))
    (matchedPairs (colAlign base ours)) (matchedPairs (colAlign base theirs))
    base ours theirs

/-- `threeWayMerge` (`src/services/diffService.ts`) at the table level,
with `daff`'s `Merger` modelled from the spec: the merged table, the
`hasConflicts` flag and the conflict count. -/
def threeWayMerge (base ours theirs : Table) : Table × Bool × Nat :=
  let result := mergerApply base ours theirs
  (result.1, decide (0 < result.2.length), result.2.length)

/-- Whether a recorded conflict addresses the cell at working-table row
position `oR` and column identifier `colname`. -/
def conflictAt (oR : Nat) (colname : String) (cc : ConflictCell) : Bool :=
  cc.position == oR && cc.column == colname

theorem pushBounded_length (stack : List Snapshot) (snap : Snapshot) :
    (pushBounded stack snap).length = min (stack.length + 1) MAX_UNDO := by
  simp [pushBounded]
  omega

theorem pushBounded_length_le (stack : List Snapshot) (snap : Snapshot) :
    (pushBounded stack snap).length ≤ 100 := by
  rw [pushBounded_length]
  simp [MAX_UNDO]

theorem histLen_applyOp_le (s : SheetState) (o : Op) (h : histLen s ≤ 100) :
    histLen (applyOp s o) ≤ 100 := by
  cases o with
  | updateCell i f v =>
      simpa [applyOp, updateCell, histLen] using pushBounded_length_le s.undoStack _
  | addRow i =>
      simpa [applyOp, addRow, histLen] using pushBounded_length_le s.undoStack _
  | removeRow i =>
      simpa [applyOp, removeRow, histLen] using pushBounded_length_le s.undoStack _
  | moveRow i j =>
      by_cases hij : i = j
      · simpa [applyOp, moveRow, hij] using h
      · simpa [applyOp, moveRow, hij, histLen] using pushBounded_length_le s.undoStack _
  | addColumn c i =>
      simpa [applyOp, addColumn, histLen] using pushBounded_length_le s.undoStack _
  | moveColumn i j =>
      by_cases hij : i = j
      · simpa [applyOp, moveColumn, hij] using h
      · simpa [applyOp, moveColumn, hij, histLen] using pushBounded_length_le s.undoStack _
  | reorderColumns fo =>
      unfold applyOp reorderColumns
      by_cases h1 : (fo.filterMap (lookupColumn s.columns)).length ≠ s.columns.length
      · simpa [h1] using h
      · by_cases h2 : fo = s.columns.map (fun c => c.field)
        · simpa [h1, h2] using h
        · simpa [h1, h2, histLen] using pushBounded_length_le s.undoStack _
  | removeColumn f =>
      simpa [applyOp, removeColumn, histLen] using pushBounded_length_le s.undoStack _
  | clearFile => simp [applyOp, clearFile, histLen]
  | loadFileOk cs rs p => simp [applyOp, loadFileOk, histLen]
  | loadFileFail => simpa [applyOp] using h
  | save o =>
      cases hp : s.filePath with
      | none => simpa [applyOp, save, hp] using h
      | some p =>
          cases o with
          | ok t => simpa [applyOp, save, hp, histLen] using h
          | fail => simpa [applyOp, save, hp, histLen] using h
  | undo =>
      cases hu : s.undoStack.getLast? with
      | none => simpa [applyOp, undo, hu] using h
      | some prev =>
          have hne : s.undoStack ≠ [] := by
            intro hnil; rw [hnil] at hu; simp at hu
          have : s.undoStack.length ≠ 0 := by
            simpa [List.length_eq_zero] using hne
          simp only [applyOp, undo, hu, histLen] at *
          simp only [List.length_dropLast, List.length_append, List.length_cons,
            List.length_nil]
          omega
  | redo =>
      cases hr : s.redoStack.getLast? with
      | none => simpa [applyOp, redo, hr] using h
      | some next =>
          have hne : s.redoStack ≠ [] := by
            intro hnil; rw [hnil] at hr; simp at hr
          have : s.redoStack.length ≠ 0 := by
            simpa [List.length_eq_zero] using hne
          simp only [applyOp, redo, hr, histLen] at *
          simp only [List.length_dropLast, List.length_append, List.length_cons,
            List.length_nil]
          omega

theorem histLen_applyOps_le (ops : List Op) (s : SheetState) (h : histLen s ≤ 100) :
    histLen (applyOps s ops) ≤ 100 := by
  induction ops generalizing s with
  | nil => simpa [applyOps] using h
  | cons o ops ih =>
      have h1 := histLen_applyOp_le s o h
      simpa [applyOps, List.foldl_cons] using ih (applyOp s o) h1

theorem undoStack_length_le (ops : List Op) (s : SheetState) (h : histLen s ≤ 100) :
    (applyOps s ops).undoStack.length ≤ 100 := by
  have := histLen_applyOps_le ops s h
  unfold histLen at this
  omega

/-! ### Edit sequences and undo/redo unwinding -/

theorem takeSnapshot_eta (q : Snapshot) : takeSnapshot q.columns q.rows = q := by
  cases q; rfl

theorem applyEdit_fields (s : SheetState) (e : CellEdit) :
    (applyEdit s e).columns = s.columns ∧
    (applyEdit s e).undoStack = pushBounded s.undoStack (curSnap s) ∧
    (applyEdit s e).redoStack = [] ∧
    (applyEdit s e).isDirty = true := by
  refine ⟨rfl, rfl, rfl, rfl⟩

theorem pushBounded_decomp (stack : List Snapshot) (snap : Snapshot) :
    pushBounded stack snap = stack.drop (stack.length + 1 - MAX_UNDO) ++ [snap] := by
  unfold pushBounded
  have h : stack.length + 1 - MAX_UNDO ≤ stack.length := by
    unfold MAX_UNDO; omega
  simp [List.drop_append_of_le_length h]

theorem snaps_length (es : List CellEdit) (s : SheetState) :
    (snaps s es).length = es.length := by
  induction es generalizing s with
  | nil => rfl
  | cons e es ih => simp [snaps, ih]

theorem applyEdits_append (s : SheetState) (xs ys : List CellEdit) :
    applyEdits s (xs ++ ys) = applyEdits (applyEdits s xs) ys := by
  simp [applyEdits, List.foldl_append]

theorem applyEdits_redoStack (es : List CellEdit) (s : SheetState) (h : es ≠ []) :
    (applyEdits s es).redoStack = [] := by
  induction es generalizing s with
  | nil => exact absurd rfl h
  | cons e es ih =>
      cases es with
      | nil => simp [applyEdits, applyEdit, updateCell]
      | cons e2 es2 =>
          rw [show applyEdits s (e :: e2 :: es2) = applyEdits (applyEdit s e) (e2 :: es2) from rfl]
          exact ih (applyEdit s e) (by simp)

theorem applyEdits_undoStack_le (es : List CellEdit) (s : SheetState) (h : es ≠ []) :
    (applyEdits s es).undoStack.length ≤ 100 := by
  rcases List.eq_nil_or_concat es with rfl | ⟨ys, y, rfl⟩
  · exact absurd rfl h
  · rw [List.concat_eq_append, applyEdits_append]
    rw [show applyEdits (applyEdits s ys) [y] = applyEdit (applyEdits s ys) y from rfl]
    rw [(applyEdit_fields _ _).2.1]
    exact pushBounded_length_le _ _

/-- Running edits appends their pre-edit snapshots after any surviving part
of the original stack: a protected suffix `B` short enough to escape
eviction is still in place, immediately followed by the new snapshots. -/
theorem applyEdits_undoStack_decomp (es : List CellEdit) (s : SheetState)
    (A B : List Snapshot) (hAB : s.undoStack = A ++ B)
    (hlen : B.length + es.length ≤ 100) :
    ∃ P, (applyEdits s es).undoStack = P ++ B ++ snaps s es := by
  induction es generalizing s A B with
  | nil =>
      exact ⟨A, by simp [applyEdits, snaps, hAB]⟩
  | cons e es ih =>
      have hstep : (applyEdit s e).undoStack
          = (A.drop (A.length + B.length + 1 - MAX_UNDO)) ++ (B ++ [curSnap s]) := by
        rw [(applyEdit_fields s e).2.1, pushBounded_decomp, hAB]
        have hj : A.length + B.length + 1 - MAX_UNDO ≤ A.length := by
          simp only [List.length_cons] at hlen
          unfold MAX_UNDO
          omega
        simp [List.drop_append_of_le_length hj, List.length_append]
      have hlen' : (B ++ [curSnap s]).length + es.length ≤ 100 := by
        simp only [List.length_append, List.length_cons, List.length_nil]
        simp only [List.length_cons] at hlen
        omega
      obtain ⟨P, hP⟩ := ih (applyEdit s e) _ _ hstep hlen'
      refine ⟨P, ?_⟩
      rw [show applyEdits s (e :: es) = applyEdits (applyEdit s e) es from rfl, hP]
      simp [snaps, List.append_assoc]

theorem undoN_succ_last (n : Nat) (s : SheetState) :
    undoN (n + 1) s = undo (undoN n s) := by
  induction n generalizing s with
  | zero => rfl
  | succ n ih =>
      rw [show undoN (n + 2) s = undoN (n + 1) (undo s) from rfl, ih]
      rfl

/-- Unwinding: with `undoStack = P ++ q₀ :: Q`, running `|Q| + 1` undos
restores the table of `q₀`, leaves `P` as the undo stack, and appends the
popped tables (current table first, then the popped entries newest-first)
onto the redo stack. -/
theorem undoN_unwind (Q : List Snapshot) (q0 : Snapshot) (P : List Snapshot)
    (s : SheetState) (hu : s.undoStack = P ++ q0 :: Q) :
    (undoN (Q.length + 1) s).columns = q0.columns ∧
    (undoN (Q.length + 1) s).rows = q0.rows ∧
    (undoN (Q.length + 1) s).undoStack = P ∧
    (undoN (Q.length + 1) s).redoStack = s.redoStack ++ (curSnap s :: Q.reverse) := by
  induction Q using List.reverseRecOn generalizing s with
  | nil =>
      have hlast : s.undoStack.getLast? = some q0 := by
        rw [hu]; exact List.getLast?_concat _
      have hdrop : s.undoStack.dropLast = P := by
        rw [hu]; exact List.dropLast_concat
      refine ⟨?_, ?_, ?_, ?_⟩ <;>
        simp [undoN, undo, hlast, hdrop, curSnap]
  | append_singleton W q ih =>
      have hstack : s.undoStack = (P ++ q0 :: W) ++ [q] := by
        rw [hu]; simp
      have hlast : s.undoStack.getLast? = some q := by
        rw [hstack]; exact List.getLast?_concat _
      have hdrop : s.undoStack.dropLast = P ++ q0 :: W := by
        rw [hstack]; exact List.dropLast_concat
      have hstep : undoN ((W ++ [q]).length + 1) s = undoN (W.length + 1) (undo s) := by
        simp only [List.length_append, List.length_cons, List.length_nil]
        rfl
      have hu' : (undo s).undoStack = P ++ q0 :: W := by
        simp [undo, hlast, hdrop]
      obtain ⟨hc, hr, hus, hrs⟩ := ih (undo s) hu'
      rw [hstep]
      refine ⟨hc, hr, hus, ?_⟩
      rw [hrs]
      have hredo : (undo s).redoStack = s.redoStack ++ [curSnap s] := by
        simp [undo, hlast, curSnap]
      have hcols : (undo s).columns = q.columns := by
        simp [undo, hlast]
      have hrows : (undo s).rows = q.rows := by
        simp [undo, hlast]
      rw [show curSnap (undo s) = takeSnapshot (undo s).columns (undo s).rows from rfl,
        hcols, hrows, takeSnapshot_eta, hredo]
      simp

theorem undo_of_empty (s : SheetState) (h : s.undoStack = []) : undo s = s := by
  simp [undo, h]

theorem redo_of_empty (s : SheetState) (h : s.redoStack = []) : redo s = s := by
  simp [redo, h]

theorem redoN_of_empty (k : Nat) (s : SheetState) (h : s.redoStack = []) :
    redoN k s = s := by
  induction k with
  | zero => rfl
  | succ k ih => rw [show redoN (k + 1) s = redoN k (redo s) from rfl, redo_of_empty s h, ih]

theorem updateRowsAux_out_of_range (rowIndex : Int) (field value : String)
    (rows : List Row) (i : Nat)
    (h : rowIndex < (i : Int) ∨ (i : Int) + rows.length ≤ rowIndex) :
    updateRowsAux rowIndex field value i rows = rows := by
  induction rows generalizing i with
  | nil => rfl
  | cons r rs ih =>
      have hne : ¬((i : Int) = rowIndex) := by
        simp only [List.length_cons] at h
        push_cast at h ⊢
        omega
      have hrec : updateRowsAux rowIndex field value (i + 1) rs = rs := by
        apply ih
        simp only [List.length_cons] at h
        push_cast at h ⊢
        omega
      simp [updateRowsAux, hne, hrec]

/-- C9: an edit whose `rowIndex` is outside `[0, rows.length)` changes no
cell — columns and rows keep their prior values — yet still pushes a
snapshot onto the undo stack, clears the redo stack and marks the store
dirty. -/
theorem updateCell_out_of_range (s : SheetState) (rowIndex : Int) (field value : String)
    (h : rowIndex < 0 ∨ (s.rows.length : Int) ≤ rowIndex) :
    (updateCell s rowIndex field value).columns = s.columns ∧
    (updateCell s rowIndex field value).rows = s.rows ∧
    (updateCell s rowIndex field value).undoStack = pushBounded s.undoStack (curSnap s) ∧
    (updateCell s rowIndex field value).redoStack = [] ∧
    (updateCell s rowIndex field value).isDirty = true := by
  refine ⟨rfl, ?_, rfl, rfl, rfl⟩
  show updateRowsAux rowIndex field value 0 s.rows = s.rows
  apply updateRowsAux_out_of_range
  simpa using h

/-- Witness for C9: a concrete out-of-range edit on a one-row sheet. -/
theorem updateCell_out_of_range_witness :
    ((5 : Int) < 0 ∨ (((⟨[⟨"a", "A", none⟩], [[("a", "x")]], none, false, false, none,
        [], []⟩ : SheetState)).rows.length : Int) ≤ 5) ∧
    (updateCell ⟨[⟨"a", "A", none⟩], [[("a", "x")]], none, false, false, none, [], []⟩
        5 "a" "y").rows = [[("a", "x")]] := by
  refine ⟨by decide, ?_⟩
  exact (updateCell_out_of_range
    ⟨[⟨"a", "A", none⟩], [[("a", "x")]], none, false, false, none, [], []⟩
    5 "a" "y" (by decide)).2.1

/-- C10: `moveRow` and `moveColumn` with equal source and destination
indices are complete no-ops: the whole state, undo and redo stacks
included, is returned unchanged. -/
theorem move_same_index_noop (s : SheetState) (i : Nat) :
    moveRow s i i = s ∧ moveColumn s i i = s := by
  exact ⟨by simp [moveRow], by simp [moveColumn]⟩

/-- C6: when `writeCsv` rejects, `save()` re-throws and the only field it
touches is the `isSaving` flag; columns, rows, both history stacks and
`lastSavedAt` are untouched, and a dirty store stays dirty. -/
theorem save_failure_frame (s : SheetState) (p : String) (hp : s.filePath = some p) :
    (save s .fail).2 = true ∧
    (save s .fail).1 = { s with isSaving := false } ∧
    (save s .fail).1.columns = s.columns ∧
    (save s .fail).1.rows = s.rows ∧
    (save s .fail).1.undoStack = s.undoStack ∧
    (save s .fail).1.redoStack = s.redoStack ∧
    (save s .fail).1.lastSavedAt = s.lastSavedAt ∧
    (save s .fail).1.isDirty = s.isDirty ∧
    (s.isDirty = true → (save s .fail).1.isDirty = true) := by
  simp [save, hp]

/-- Witness for C6: a failing save on a concrete dirty sheet. -/
theorem save_failure_frame_witness :
    ((⟨[], [[("a", "x")]], some "t.csv", true, false, none, [], []⟩ : SheetState)).filePath
        = some "t.csv" ∧
    (save ⟨[], [[("a", "x")]], some "t.csv", true, false, none, [], []⟩ .fail).2 = true ∧
    (save ⟨[], [[("a", "x")]], some "t.csv", true, false, none, [], []⟩ .fail).1.isDirty
        = true := by
  have h := save_failure_frame
    ⟨[], [[("a", "x")]], some "t.csv", true, false, none, [], []⟩ "t.csv" rfl
  exact ⟨rfl, h.1, h.2.2.2.2.2.2.2.2 rfl⟩

/-- C8: a file-change notification triggers a reload exactly when the
notified path is the currently open file's path and the store is clean;
a dirty store ignores the notification entirely, so the in-memory table
is never replaced. -/
theorem fileChanged_gate (s : SheetState) (eventPath : String) (outcome : LoadOutcome) :
    ((fileChanged s eventPath outcome).2 = true ↔
        s.filePath = some eventPath ∧ s.isDirty = false) ∧
    (s.isDirty = true → fileChanged s eventPath outcome = (s, false)) := by
  cases hfp : s.filePath with
  | none =>
      constructor
      · simp [fileChanged, hfp]
      · intro _; simp [fileChanged, hfp]
  | some fp =>
      by_cases hc : eventPath = fp ∧ s.isDirty = false
      · constructor
        · cases outcome <;> simp [fileChanged, hfp, hc]
        · intro hd; rw [hc.2] at hd; cases hd
      · constructor
        · constructor
          · intro habs
            simp [fileChanged, hfp, hc] at habs
          · rintro ⟨h1, h2⟩
            exact absurd ⟨(Option.some_inj.mp h1).symm, h2⟩ hc
        · intro _; simp [fileChanged, hfp, hc]

/-- Counterexample to C7's mid-save guard: starting from a clean store
with an open file, one dirty mutation schedules the timer; its firing
starts a save, and the `set({isSaving: true})` inside `save()` re-runs the
still-dirty subscriber, re-arming the timer.  The store is now mid-save
(`isSaving = true`, one write in flight) with a pending timer — and that
timer's firing issues a second save: the debounce callback never checks
`isSaving`. -/
theorem autoSave_guard_counterexample :
    (runEvents ⟨false, false, some "f.csv", false, 0⟩ [.mutate, .timerFire]).isSaving = true ∧
    (runEvents ⟨false, false, some "f.csv", false, 0⟩ [.mutate, .timerFire]).savesInFlight = 1 ∧
    (runEvents ⟨false, false, some "f.csv", false, 0⟩ [.mutate, .timerFire]).timerPending = true ∧
    (asStep (runEvents ⟨false, false, some "f.csv", false, 0⟩ [.mutate, .timerFire])
        .timerFire).2 = true := by
  exact ⟨rfl, rfl, rfl, rfl⟩

/-- C7 (amended): every dirty mutation with an open file (re)schedules the
debounce timer and never itself issues a save — in particular a mutation
arriving while a save is in flight only reschedules the timer — but when
the timer fires, a save is issued exactly when a file is open, regardless
of `isSaving`. -/
theorem autoSave_debounce (w : AutoSaveSys) :
    ((asStep w .mutate).2 = false ∧
      (w.filePath.isSome = true → (asStep w .mutate).1.timerPending = true)) ∧
    (w.savesInFlight > 0 →
      (asStep w .mutate).2 = false ∧
      (w.filePath.isSome = true → (asStep w .mutate).1.timerPending = true)) ∧
    (w.timerPending = true →
      ((asStep w .timerFire).2 = true ↔ w.filePath.isSome = true)) := by
  refine ⟨⟨rfl, ?_⟩, ?_, ?_⟩
  · intro hfp
    simp [asStep, subscriberRun, hfp]
  · intro _
    refine ⟨rfl, ?_⟩
    intro hfp
    simp [asStep, subscriberRun, hfp]
  · intro htp
    cases hfp : w.filePath with
    | none => simp [asStep, htp, hfp]
    | some p => simp [asStep, subscriberRun, htp, hfp]

/-- Witness for the amended C7: a mutation during an in-flight save on a
concrete system reschedules the timer without issuing a save. -/
theorem autoSave_debounce_witness :
    ((⟨true, true, some "f.csv", false, 1⟩ : AutoSaveSys)).savesInFlight > 0 ∧
    (asStep ⟨true, true, some "f.csv", false, 1⟩ .mutate).2 = false ∧
    (asStep ⟨true, true, some "f.csv", false, 1⟩ .mutate).1.timerPending = true := by
  have h := (autoSave_debounce ⟨true, true, some "f.csv", false, 1⟩).2.1 (by decide)
  exact ⟨by decide, h.1, h.2 rfl⟩

theorem getLast?_cons_reverse (l : List α) (a : α) :
    (a :: l.reverse).getLast? = some (l.headD a) := by
  cases l with
  | nil => rfl
  | cons h t =>
      rw [List.reverse_cons,
        show a :: (t.reverse ++ [h]) = (a :: t.reverse) ++ [h] from rfl,
        List.getLast?_concat]
      rfl

/-- C5: for at most 100 consecutive edits from any sheet state, as many
undos restore exactly the pre-edit-1 columns and rows; one further redo
restores the table after edit 1; and an edit performed after an undo
empties the redo stack, making every further redo a no-op. -/
theorem edits_undo_redo (s0 : SheetState) (e1 : CellEdit) (es' : List CellEdit)
    (hlen : es'.length + 1 ≤ 100) :
    ((undoN (es'.length + 1) (applyEdits s0 (e1 :: es'))).columns = s0.columns ∧
     (undoN (es'.length + 1) (applyEdits s0 (e1 :: es'))).rows = s0.rows) ∧
    ((redo (undoN (es'.length + 1) (applyEdits s0 (e1 :: es')))).columns
        = (applyEdit s0 e1).columns ∧
     (redo (undoN (es'.length + 1) (applyEdits s0 (e1 :: es')))).rows
        = (applyEdit s0 e1).rows) ∧
    (∀ (t : SheetState) (e : CellEdit),
      (applyEdit (undo t) e).redoStack = [] ∧
      ∀ k, redoN k (applyEdit (undo t) e) = applyEdit (undo t) e) := by
  obtain ⟨P, hP⟩ := applyEdits_undoStack_decomp (e1 :: es') s0 s0.undoStack []
    (by simp) (by simpa using hlen)
  rw [List.append_nil] at hP
  rw [show snaps s0 (e1 :: es') = curSnap s0 :: snaps (applyEdit s0 e1) es' from rfl] at hP
  have hlen2 : (snaps (applyEdit s0 e1) es').length = es'.length := snaps_length _ _
  obtain ⟨hc, hr, hus, hrs⟩ := undoN_unwind (snaps (applyEdit s0 e1) es') (curSnap s0) P
    (applyEdits s0 (e1 :: es')) hP
  rw [hlen2] at hc hr hus hrs
  have hredo0 : (applyEdits s0 (e1 :: es')).redoStack = [] :=
    applyEdits_redoStack _ _ (by simp)
  rw [hredo0, List.nil_append] at hrs
  have hlast : (undoN (es'.length + 1) (applyEdits s0 (e1 :: es'))).redoStack.getLast?
      = some (curSnap (applyEdit s0 e1)) := by
    rw [hrs, getLast?_cons_reverse]
    cases es' with
    | nil => rfl
    | cons e2 es'' => rfl
  refine ⟨⟨?_, ?_⟩, ⟨?_, ?_⟩, ?_⟩
  · rw [hc]; rfl
  · rw [hr]; rfl
  · simp [redo, hlast, curSnap, takeSnapshot]
  · simp [redo, hlast, curSnap, takeSnapshot]
  · intro t e
    exact ⟨rfl, fun k => redoN_of_empty k _ rfl⟩

/-- Witness for C5: one edit on a one-row sheet, one undo. -/
theorem edits_undo_redo_witness :
    ([] : List CellEdit).length + 1 ≤ 100 ∧
    (undoN 1 (applyEdits ⟨[], [[("a", "x")]], none, false, false, none, [], []⟩
        [⟨0, "a", "y"⟩])).rows = [[("a", "x")]] := by
  refine ⟨by decide, ?_⟩
  have h := edits_undo_redo ⟨[], [[("a", "x")]], none, false, false, none, [], []⟩
    ⟨0, "a", "y"⟩ [] (by decide)
  exact h.1.2

/-- C4: after every operation sequence the undo stack holds at most 100
snapshots; 101 consecutive edits followed by 101 undos leave the table in
the state after edit #1 — the 101st undo is a no-op on the emptied stack —
which differs from the original whenever edit #1 changed the table. -/
theorem undo_capacity (ops : List Op) (s : SheetState) (hs : histLen s ≤ 100)
    (s0 : SheetState) (e1 e2 : CellEdit) (es : List CellEdit)
    (h0 : s0.undoStack = []) (hlen : es.length = 99) :
    (applyOps s ops).undoStack.length ≤ 100 ∧
    ((undoN 101 (applyEdits s0 (e1 :: e2 :: es))).columns = (applyEdit s0 e1).columns ∧
     (undoN 101 (applyEdits s0 (e1 :: e2 :: es))).rows = (applyEdit s0 e1).rows) ∧
    (undoN 100 (applyEdits s0 (e1 :: e2 :: es))).undoStack = [] ∧
    undoN 101 (applyEdits s0 (e1 :: e2 :: es)) = undoN 100 (applyEdits s0 (e1 :: e2 :: es)) ∧
    ((applyEdit s0 e1).rows ≠ s0.rows →
      (undoN 101 (applyEdits s0 (e1 :: e2 :: es))).rows ≠ s0.rows) := by
  have hs1 : (applyEdit s0 e1).undoStack = [curSnap s0] := by
    rw [(applyEdit_fields s0 e1).2.1, h0]
    rfl
  obtain ⟨P, hP⟩ := applyEdits_undoStack_decomp (e2 :: es) (applyEdit s0 e1)
    [curSnap s0] [] (by simpa using hs1) (by simp [hlen])
  rw [List.append_nil] at hP
  have hPlen : (snaps (applyEdit s0 e1) (e2 :: es)).length = 100 := by
    rw [snaps_length]; simp [hlen]
  have hle : (applyEdits (applyEdit s0 e1) (e2 :: es)).undoStack.length ≤ 100 :=
    applyEdits_undoStack_le _ _ (by simp)
  have hPnil : P = [] := by
    rw [hP, List.length_append, hPlen] at hle
    have : P.length = 0 := by omega
    simpa [List.length_eq_zero] using this
  rw [hPnil, List.nil_append] at hP
  have hEq : applyEdits s0 (e1 :: e2 :: es) = applyEdits (applyEdit s0 e1) (e2 :: es) := rfl
  rw [show snaps (applyEdit s0 e1) (e2 :: es)
      = curSnap (applyEdit s0 e1) :: snaps (applyEdit (applyEdit s0 e1) e2) es from rfl] at hP
  obtain ⟨hc, hr, hus, _⟩ := undoN_unwind
    (snaps (applyEdit (applyEdit s0 e1) e2) es) (curSnap (applyEdit s0 e1)) []
    (applyEdits (applyEdit s0 e1) (e2 :: es)) hP
  have hsl : (snaps (applyEdit (applyEdit s0 e1) e2) es).length = 99 := by
    rw [snaps_length, hlen]
  rw [hsl] at hc hr hus
  have h100 : (99 : Nat) + 1 = 100 := rfl
  rw [h100] at hc hr hus
  have hnoop : undoN 101 (applyEdits s0 (e1 :: e2 :: es))
      = undoN 100 (applyEdits s0 (e1 :: e2 :: es)) := by
    rw [show (101 : Nat) = 100 + 1 from rfl, undoN_succ_last, hEq,
      undo_of_empty _ hus]
  refine ⟨undoStack_length_le ops s hs, ⟨?_, ?_⟩, ?_, hnoop, ?_⟩
  · rw [hnoop, hEq, hc]; rfl
  · rw [hnoop, hEq, hr]; rfl
  · rw [hEq]; exact hus
  · intro hne
    rw [hnoop, hEq, hr]
    exact hne

/-- Witness for C4: 101 edits and 101 undos on a concrete one-cell sheet
end at the value written by edit #1. -/
theorem undo_capacity_witness :
    ((⟨[], [[("a", "x")]], none, false, false, none, [], []⟩ : SheetState)).undoStack = [] ∧
    (List.replicate 99 (⟨0, "a", "z"⟩ : CellEdit)).length = 99 ∧
    (undoN 101 (applyEdits ⟨[], [[("a", "x")]], none, false, false, none, [], []⟩
        (⟨0, "a", "y"⟩ :: ⟨0, "a", "z"⟩ :: List.replicate 99 ⟨0, "a", "z"⟩))).rows
      = [[("a", "y")]] := by
  have h := undo_capacity [] ⟨[], [], none, false, false, none, [], []⟩ (by decide)
    ⟨[], [[("a", "x")]], none, false, false, none, [], []⟩ ⟨0, "a", "y"⟩ ⟨0, "a", "z"⟩
    (List.replicate 99 ⟨0, "a", "z"⟩) rfl (by simp)
  refine ⟨rfl, by simp, ?_⟩
  rw [h.2.1.2]
  rfl

/-- Witness for C8: a dirty store ignores a notification for the open
file's own path. -/
theorem fileChanged_gate_witness :
    ((⟨[], [], some "a.csv", true, false, none, [], []⟩ : SheetState)).isDirty = true ∧
    fileChanged ⟨[], [], some "a.csv", true, false, none, [], []⟩ "a.csv" .fail
      = (⟨[], [], some "a.csv", true, false, none, [], []⟩, false) := by
  exact ⟨rfl,
    (fileChanged_gate ⟨[], [], some "a.csv", true, false, none, [], []⟩ "a.csv" .fail).2 rfl⟩

/-! ### Diff and merge properties -/

/-- C1 (code bug): for left `[[id,name],[1,Alice]]` against right
`[[id,name],[1,Alice],[2,Bob]]`, daff's documented Tabular Diff Format
yields the highlight table `[[@@,id,name], [,1,Alice], [+++,2,Bob]]` —
the `@@` header row with no preceding `!` schema row, since no columns
changed, then the unchanged `Alice` row shown as context (default
`unchanged_context`), then the added row.  `extractStructuredDiff` skips
two leading rows unconditionally, consuming the `Alice` row as the header,
and so reports the added row at position 0 — whereas one counter walked
over the whole row alignment in order, as the spec defines diff-row
positions, assigns the `Bob` row position 1 (`Alice` matched at 0).  Only
the summary agrees. -/
theorem extract_position_shift :
    compareCsv [["@@", "id", "name"], ["", "1", "Alice"], ["+++", "2", "Bob"]]
      = (⟨[0], [], [], [], []⟩, "1 row(s) added") ∧
    rowAlign ⟨["id", "name"], [["1", "Alice"]]⟩
        ⟨["id", "name"], [["1", "Alice"], ["2", "Bob"]]⟩
      = [.matched 0 0, .inserted 1] ∧
    classify ⟨["id", "name"], [["1", "Alice"]]⟩
        ⟨["id", "name"], [["1", "Alice"], ["2", "Bob"]]⟩
      = ⟨[1], [], [], [], []⟩ := by
  exact ⟨rfl, rfl, rfl⟩

theorem alignFuel_self [DecidableEq α] (l : List α) (fuel k : Nat)
    (h : l.length ≤ fuel) :
    alignFuel fuel k k l l
      = (List.range' k l.length).map (fun i => AlignEntry.matched i i) := by
  induction l generalizing fuel k with
  | nil => cases fuel <;> simp [alignFuel]
  | cons x xs ih =>
      cases fuel with
      | zero => simp at h
      | succ fuel =>
          have hx : alignFuel (fuel + 1) k k (x :: xs) (x :: xs)
              = AlignEntry.matched k k :: alignFuel fuel (k + 1) (k + 1) xs xs := by
            simp [alignFuel]
          rw [hx, ih fuel (k + 1) (by simpa using h)]
          simp [List.range'_succ]

theorem matchedPairs_alignKeys_self [DecidableEq α] (l : List α) :
    matchedPairs (alignKeys l l)
      = (List.range' 0 l.length).map (fun i => (i, i)) := by
  rw [alignKeys, alignFuel_self l (l.length + l.length) 0 (by omega)]
  rw [matchedPairs, List.filterMap_map]
  rw [show ((fun e => match e with
      | AlignEntry.matched a b => some (a, b)
      | _ => none) ∘ fun i => AlignEntry.matched i i)
    = fun i => some (i, i) from rfl]
  rw [List.filterMap_eq_map_iff_forall_eq_some.mpr ?_]
  · intro i _
    rfl

theorem lookupMatch_diag (n k b : Nat) :
    lookupMatch ((List.range' k n).map (fun i => (i, i))) b
      = if k ≤ b ∧ b < k + n then some b else none := by
  induction n generalizing k with
  | zero =>
      rw [if_neg (by omega)]
      rfl
  | succ n ih =>
      rw [List.range'_succ, List.map_cons]
      by_cases hkb : k = b
      · subst hkb
        rw [if_pos (by omega)]
        simp [lookupMatch]
      · have : lookupMatch (((k, k) :: (List.range' (k + 1) n).map fun i => (i, i))) b
            = lookupMatch ((List.range' (k + 1) n).map fun i => (i, i)) b := by
          simp [lookupMatch, List.findSome?_cons, hkb]
        rw [this, ih (k + 1)]
        by_cases hin : k + 1 ≤ b ∧ b < k + 1 + n
        · rw [if_pos hin, if_pos (by omega)]
        · rw [if_neg hin, if_neg (by omega)]

theorem lookupBack_diag (n k b : Nat) :
    lookupBack ((List.range' k n).map (fun i => (i, i))) b
      = if k ≤ b ∧ b < k + n then some b else none := by
  induction n generalizing k with
  | zero =>
      rw [if_neg (by omega)]
      rfl
  | succ n ih =>
      rw [List.range'_succ, List.map_cons]
      by_cases hkb : k = b
      · subst hkb
        rw [if_pos (by omega)]
        simp [lookupBack]
      · have : lookupBack (((k, k) :: (List.range' (k + 1) n).map fun i => (i, i))) b
            = lookupBack ((List.range' (k + 1) n).map fun i => (i, i)) b := by
          simp [lookupBack, List.findSome?_cons, hkb]
        rw [this, ih (k + 1)]
        by_cases hin : k + 1 ≤ b ∧ b < k + 1 + n
        · rw [if_pos hin, if_pos (by omega)]
        · rw [if_neg hin, if_neg (by omega)]

theorem matchedPairs_rowAlign_self (T : Table) :
    matchedPairs (rowAlign T T)
      = (List.range' 0 T.rows.length).map (fun i => (i, i)) := by
  have hproj : ((matchedPairs (colAlign T T)).map Prod.fst)
      = ((matchedPairs (colAlign T T)).map Prod.snd) := by
    rw [show colAlign T T = alignKeys T.cols T.cols from rfl,
      matchedPairs_alignKeys_self]
    simp [List.map_map]
  have hKL : rowAlign T T = alignKeys
      ((List.range T.rows.length).map
        (rowKey T.rows ((matchedPairs (colAlign T T)).map Prod.fst)))
      ((List.range T.rows.length).map
        (rowKey T.rows ((matchedPairs (colAlign T T)).map Prod.snd))) := rfl
  rw [hKL, ← hproj, matchedPairs_alignKeys_self]
  simp

theorem lt_length_of_get?_eq_some {l : List α} {n : Nat} {a : α}
    (h : l.get? n = some a) : n < l.length := by
  by_contra hn
  rw [List.get?_eq_none.mpr (Nat.le_of_not_lt hn)] at h
  cases h

theorem mergeRowAux_id (g : Nat → String → String) (row : List String) (c0 : Nat)
    (h : ∀ c v, row.get? c = some v → g (c0 + c) v = v) :
    mergeRowAux g c0 row = row := by
  induction row generalizing c0 with
  | nil => rfl
  | cons v vs ih =>
      rw [mergeRowAux]
      rw [show g c0 v = v from by simpa using h 0 v rfl]
      rw [ih (c0 + 1) ?_]
      intro c v' hc
      rw [show c0 + 1 + c = c0 + (c + 1) from by omega]
      exact h (c + 1) v' (by simpa using hc)

theorem mergeRowsAux_id (f : Nat → Nat → String → String)
    (rows : List (List String)) (r0 : Nat)
    (h : ∀ r row, rows.get? r = some row →
      ∀ c v, row.get? c = some v → f (r0 + r) c v = v) :
    mergeRowsAux f r0 rows = rows := by
  induction rows generalizing r0 with
  | nil => rfl
  | cons row rest ih =>
      rw [mergeRowsAux]
      congr 1
      · apply mergeRowAux_id
        intro c v hc
        simpa using h 0 row rfl c v hc
      · apply ih
        intro r row' hr c v hc
        rw [show r0 + 1 + r = r0 + (r + 1) from by omega]
        exact h (r + 1) row' (by simpa using hr) c v hc

theorem flatMap_eq_nil_of (l : List α) (f : α → List β) (h : ∀ a ∈ l, f a = []) :
    l.flatMap f = [] := by
  induction l with
  | nil => rfl
  | cons a l ih =>
      rw [List.flatMap_cons, h a (List.mem_cons_self a l), List.nil_append]
      exact ih fun b hb => h b (List.mem_cons_of_mem a hb)

theorem filterMap_eq_nil_of (l : List α) (f : α → Option β) (h : ∀ a ∈ l, f a = none) :
    l.filterMap f = [] := by
  induction l with
  | nil => rfl
  | cons a l ih =>
      rw [List.filterMap_cons, h a (List.mem_cons_self a l)]
      exact ih fun b hb => h b (List.mem_cons_of_mem a hb)

theorem mergeCellValue_refl (v : String) : mergeCellValue v v v = (v, false) := by
  simp [mergeCellValue]

theorem mergerCore_diag (T : Table) :
    mergerCore ((List.range' 0 T.rows.length).map (fun i => (i, i)))
      ((List.range' 0 T.rows.length).map (fun i => (i, i)))
      ((List.range' 0 T.cols.length).map (fun i => (i, i)))
      ((List.range' 0 T.cols.length).map (fun i => (i, i))) T T T = (T, []) := by
  rw [mergerCore]
  have hrows : mergeRowsAux (cellMergeValue
      ((List.range' 0 T.rows.length).map (fun i => (i, i)))
      ((List.range' 0 T.rows.length).map (fun i => (i, i)))
      ((List.range' 0 T.cols.length).map (fun i => (i, i)))
      ((List.range' 0 T.cols.length).map (fun i => (i, i))) T T) 0 T.rows = T.rows := by
    apply mergeRowsAux_id
    intro r row hr c v hc
    have hrlt : r < T.rows.length := lt_length_of_get?_eq_some hr
    have hcell : cell T r c = v := by
      rw [cell, cellAt, hr, Option.getD_some, hc, Option.getD_some]
    simp only [Nat.zero_add]
    unfold cellMergeValue
    rw [lookupBack_diag, if_pos (by omega)]
    by_cases hclt : c < T.cols.length
    · rw [lookupBack_diag, if_pos (by omega)]
      simp only
      rw [lookupMatch_diag, if_pos (by omega), lookupMatch_diag, if_pos (by omega)]
      simp only [hcell, mergeCellValue_refl]
    · rw [lookupBack_diag, if_neg (by omega)]
  have hconf : ((List.range T.rows.length).flatMap fun oR =>
      (List.range T.cols.length).filterMap fun oC =>
        cellConflict ((List.range' 0 T.rows.length).map (fun i => (i, i)))
          ((List.range' 0 T.rows.length).map (fun i => (i, i)))
          ((List.range' 0 T.cols.length).map (fun i => (i, i)))
          ((List.range' 0 T.cols.length).map (fun i => (i, i))) T T T oR oC) = [] := by
    apply flatMap_eq_nil_of
    intro oR hoR
    have hoRlt : oR < T.rows.length := List.mem_range.mp hoR
    apply filterMap_eq_nil_of
    intro oC hoC
    have hoClt : oC < T.cols.length := List.mem_range.mp hoC
    unfold cellConflict
    rw [lookupBack_diag, if_pos (by omega), lookupBack_diag, if_pos (by omega)]
    simp only
    rw [lookupMatch_diag, if_pos (by omega), lookupMatch_diag, if_pos (by omega)]
    simp [mergeCellValue_refl]
  rw [hrows, hconf]

/-- C3: merging a table with itself as base, ours and theirs yields the
table unchanged, an empty conflict list, conflictCount 0 and hasConflicts
false. -/
theorem merge_self_identity (T : Table) :
    mergerApply T T T = (T, []) ∧ threeWayMerge T T T = (T, false, 0) := by
  have hmain : mergerApply T T T = (T, []) := by
    rw [show mergerApply T T T = mergerCore
        (matchedPairs (rowAlign T T)) (matchedPairs (rowAlign T T))
        (matchedPairs (colAlign T T)) (matchedPairs (colAlign T T)) T T T from rfl,
      matchedPairs_rowAlign_self,
      show colAlign T T = alignKeys T.cols T.cols from rfl,
      matchedPairs_alignKeys_self]
    exact mergerCore_diag T
  refine ⟨hmain, ?_⟩
  simp only [threeWayMerge, hmain]
  rfl

theorem countP_flatMap (p : β → Bool) (f : α → List β) (l : List α) :
    (l.flatMap f).countP p = (l.map fun a => (f a).countP p).sum := by
  induction l with
  | nil => rfl
  | cons a l ih =>
      rw [List.flatMap_cons, List.countP_append, List.map_cons, List.sum_cons, ih]

theorem countP_filterMap (p : β → Bool) (f : α → Option β) (l : List α) :
    (l.filterMap f).countP p = l.countP (fun a => ((f a).map p).getD false) := by
  induction l with
  | nil => rfl
  | cons a l ih =>
      rw [List.filterMap_cons]
      cases hfa : f a with
      | none =>
          rw [ih, List.countP_cons]
          simp [hfa]
      | some b =>
          rw [List.countP_cons, ih, List.countP_cons]
          simp [hfa]

theorem sum_map_eq_single (l : List Nat) (g : Nat → Nat) (a0 : Nat)
    (hn : l.Nodup) (hmem : a0 ∈ l) (hz : ∀ a ∈ l, a ≠ a0 → g a = 0) :
    (l.map g).sum = g a0 := by
  induction l with
  | nil => cases hmem
  | cons a l ih =>
      rw [List.map_cons, List.sum_cons]
      rcases List.mem_cons.mp hmem with rfl | hmem2
      · have hall : ∀ x ∈ l.map g, x = 0 := by
          intro x hx
          obtain ⟨b, hb, rfl⟩ := List.mem_map.mp hx
          refine hz b (List.mem_cons_of_mem _ hb) ?_
          intro hba
          exact (List.nodup_cons.mp hn).1 (hba ▸ hb)
        rw [List.sum_eq_zero hall]
        omega
      · have hne : a ≠ a0 := by
          intro hEq
          exact (List.nodup_cons.mp hn).1 (hEq ▸ hmem2)
        rw [hz a (List.mem_cons_self _ _) hne,
          ih (List.nodup_cons.mp hn).2 hmem2
            (fun b hb hbne => hz b (List.mem_cons_of_mem _ hb) hbne)]
        omega

theorem countP_eq_one_of (l : List Nat) (q : Nat → Bool) (a0 : Nat)
    (hn : l.Nodup) (hmem : a0 ∈ l) (ha0 : q a0 = true)
    (hothers : ∀ a ∈ l, a ≠ a0 → q a = false) :
    l.countP q = 1 := by
  induction l with
  | nil => cases hmem
  | cons a l ih =>
      rw [List.countP_cons]
      rcases List.mem_cons.mp hmem with rfl | hmem2
      · have hz : l.countP q = 0 := by
          apply List.countP_eq_zero.mpr
          intro b hb
          have hne : b ≠ a0 := by
            intro hEq
            exact (List.nodup_cons.mp hn).1 (hEq ▸ hb)
          simp [hothers b (List.mem_cons_of_mem _ hb) hne]
        rw [hz, ha0]
        simp
      · have hne : a ≠ a0 := by
          intro hEq
          exact (List.nodup_cons.mp hn).1 (hEq ▸ hmem2)
        rw [hothers a (List.mem_cons_self _ _) hne,
          ih (List.nodup_cons.mp hn).2 hmem2
            (fun b hb hbne => hothers b (List.mem_cons_of_mem _ hb) hbne)]
        simp

theorem colName_inj (t : Table) (hn : t.cols.Nodup) (i j : Nat)
    (hi : i < t.cols.length) (hj : j < t.cols.length) (hij : i ≠ j) :
    colName t i ≠ colName t j := by
  intro h
  rw [colName, colName, List.get?_eq_get hi, List.get?_eq_get hj,
    Option.getD_some, Option.getD_some] at h
  exact hij (Fin.mk.injEq .. ▸ ((List.Nodup.get_inj_iff hn).mp h))

theorem mergeCellValue_conflict (b o t : String)
    (h1 : b ≠ o) (h2 : b ≠ t) (h3 : o ≠ t) :
    mergeCellValue b o t = (o, true) := by
  simp [mergeCellValue, h1, h2, h3]

theorem mergeRowAux_get? (g : Nat → String → String) (row : List String) (c0 k : Nat) :
    (mergeRowAux g c0 row).get? k = (row.get? k).map (fun v => g (c0 + k) v) := by
  induction row generalizing c0 k with
  | nil => simp [mergeRowAux]
  | cons v vs ih =>
      cases k with
      | zero => simp [mergeRowAux]
      | succ k =>
          rw [mergeRowAux, show ((g c0 v :: mergeRowAux g (c0 + 1) vs).get? (k + 1))
              = (mergeRowAux g (c0 + 1) vs).get? k from rfl,
            ih (c0 + 1) k,
            show (vs.get? k) = (v :: vs).get? (k + 1) from rfl,
            show c0 + 1 + k = c0 + (k + 1) from by omega]

theorem mergeRowsAux_get? (f : Nat → Nat → String → String)
    (rows : List (List String)) (r0 k : Nat) :
    (mergeRowsAux f r0 rows).get? k
      = (rows.get? k).map (fun row => mergeRowAux (f (r0 + k)) 0 row) := by
  induction rows generalizing r0 k with
  | nil => simp [mergeRowsAux]
  | cons row rest ih =>
      cases k with
      | zero => simp [mergeRowsAux]
      | succ k =>
          rw [mergeRowsAux,
            show ((mergeRowAux (f r0) 0 row :: mergeRowsAux f (r0 + 1) rest).get? (k + 1))
              = (mergeRowsAux f (r0 + 1) rest).get? k from rfl,
            ih (r0 + 1) k,
            show (rest.get? k) = (row :: rest).get? (k + 1) from rfl,
            show r0 + 1 + k = r0 + (k + 1) from by omega]

theorem cellConflict_inv (rowsBO rowsBT colsBO colsBT : List (Nat × Nat))
    (base ours theirs : Table) (oR oC : Nat) (cc : ConflictCell)
    (h : cellConflict rowsBO rowsBT colsBO colsBT base ours theirs oR oC = some cc) :
    cc.position = oR ∧ cc.column = colName ours oC := by
  unfold cellConflict at h
  cases h1 : lookupBack rowsBO oR with
  | none => simp [h1] at h
  | some bR =>
      cases h2 : lookupBack colsBO oC with
      | none => simp [h1, h2] at h
      | some bC =>
          cases h3 : lookupMatch rowsBT bR with
          | none => simp [h1, h2, h3] at h
          | some tR =>
              cases h4 : lookupMatch colsBT bC with
              | none => simp [h1, h2, h3, h4] at h
              | some tC =>
                  simp only [h1, h2, h3, h4] at h
                  by_cases h5 : (mergeCellValue (cell base bR bC) (cell ours oR oC)
                      (cell theirs tR tC)).2 = true
                  · rw [if_pos h5] at h
                    obtain rfl := Option.some.inj h
                    exact ⟨rfl, rfl⟩
                  · rw [if_neg h5] at h
                    cases h

/-- C2: whenever a working-table cell `(oR, oC)` of `ours` corresponds —
through the row and column correspondences computed against `base` — to a
`base` cell and a `theirs` cell, and `ours` and `theirs` both changed it
relative to `base` but to different values, the merger records exactly one
conflict for that cell, carrying the base/ours/theirs values; the conflict
list is therefore nonempty (`conflictCount ≥ 1`, `hasConflicts`); and the
merged table's value at that cell, prior to any resolution, is `ours`'
value, the working table having started as a copy of `ours`. -/
theorem merge_conflict_rule
    (rowsBO rowsBT colsBO colsBT : List (Nat × Nat)) (base ours theirs : Table)
    (oR oC bR bC tR tC : Nat)
    (hnodup : ours.cols.Nodup)
    (hoR : oR < ours.rows.length) (hoC : oC < ours.cols.length)
    (hbo : lookupBack rowsBO oR = some bR)
    (hbt : lookupMatch rowsBT bR = some tR)
    (hco : lookupBack colsBO oC = some bC)
    (hct : lookupMatch colsBT bC = some tC)
    (hv1 : cell base bR bC ≠ cell ours oR oC)
    (hv2 : cell base bR bC ≠ cell theirs tR tC)
    (hv3 : cell ours oR oC ≠ cell theirs tR tC) :
    ((mergerCore rowsBO rowsBT colsBO colsBT base ours theirs).2.countP
        (conflictAt oR (colName ours oC)) = 1) ∧
    ((⟨oR, colName ours oC, cell base bR bC, cell ours oR oC, cell theirs tR tC⟩ :
        ConflictCell) ∈ (mergerCore rowsBO rowsBT colsBO colsBT base ours theirs).2) ∧
    (0 < (mergerCore rowsBO rowsBT colsBO colsBT base ours theirs).2.length) ∧
    (cell (mergerCore rowsBO rowsBT colsBO colsBT base ours theirs).1 oR oC
        = cell ours oR oC) := by
  have hmc : mergeCellValue (cell base bR bC) (cell ours oR oC) (cell theirs tR tC)
      = (cell ours oR oC, true) := mergeCellValue_conflict _ _ _ hv1 hv2 hv3
  have hcc : cellConflict rowsBO rowsBT colsBO colsBT base ours theirs oR oC
      = some ⟨oR, colName ours oC, cell base bR bC, cell ours oR oC, cell theirs tR tC⟩ := by
    unfold cellConflict
    rw [hbo, hco]
    simp only
    rw [hbt, hct]
    simp [hmc]
  have hconflicts : (mergerCore rowsBO rowsBT colsBO colsBT base ours theirs).2
      = (List.range ours.rows.length).flatMap fun oR2 =>
          (List.range ours.cols.length).filterMap fun oC2 =>
            cellConflict rowsBO rowsBT colsBO colsBT base ours theirs oR2 oC2 := rfl
  have hmem : (⟨oR, colName ours oC, cell base bR bC, cell ours oR oC,
      cell theirs tR tC⟩ : ConflictCell)
      ∈ (mergerCore rowsBO rowsBT colsBO colsBT base ours theirs).2 := by
    rw [hconflicts]
    exact List.mem_flatMap.mpr ⟨oR, List.mem_range.mpr hoR,
      List.mem_filterMap.mpr ⟨oC, List.mem_range.mpr hoC, hcc⟩⟩
  have hrowcount : ((List.range ours.cols.length).filterMap fun oC2 =>
      cellConflict rowsBO rowsBT colsBO colsBT base ours theirs oR oC2).countP
        (conflictAt oR (colName ours oC)) = 1 := by
    rw [countP_filterMap]
    apply countP_eq_one_of _ _ oC (List.nodup_range _) (List.mem_range.mpr hoC)
    · rw [hcc]
      simp [conflictAt]
    · intro oC2 hoC2 hne
      cases hG : cellConflict rowsBO rowsBT colsBO colsBT base ours theirs oR oC2 with
      | none => simp [hG]
      | some cc =>
          have hinv := cellConflict_inv rowsBO rowsBT colsBO colsBT base ours theirs
            oR oC2 cc hG
          have hcol : cc.column ≠ colName ours oC := by
            rw [hinv.2]
            exact colName_inj ours hnodup oC2 oC (List.mem_range.mp hoC2) hoC hne
          simp [hG, conflictAt, hcol]
  have hcount : (mergerCore rowsBO rowsBT colsBO colsBT base ours theirs).2.countP
      (conflictAt oR (colName ours oC)) = 1 := by
    rw [hconflicts, countP_flatMap,
      sum_map_eq_single _ _ oR (List.nodup_range _) (List.mem_range.mpr hoR) ?_]
    · exact hrowcount
    · intro oR2 hoR2 hne
      apply List.countP_eq_zero.mpr
      intro cc hccmem
      obtain ⟨oC2, _, hG⟩ := List.mem_filterMap.mp hccmem
      have hinv := cellConflict_inv rowsBO rowsBT colsBO colsBT base ours theirs
        oR2 oC2 cc hG
      simp [conflictAt, hinv.1, hne]
  have hlen : 0 < (mergerCore rowsBO rowsBT colsBO colsBT base ours theirs).2.length := by
    have hle := List.countP_le_length
      (p := conflictAt oR (colName ours oC))
      (l := (mergerCore rowsBO rowsBT colsBO colsBT base ours theirs).2)
    omega
  have hmerged : cell (mergerCore rowsBO rowsBT colsBO colsBT base ours theirs).1 oR oC
      = cell ours oR oC := by
    show cellAt (mergeRowsAux (cellMergeValue rowsBO rowsBT colsBO colsBT base theirs)
      0 ours.rows) oR oC = cell ours oR oC
    rw [cellAt, mergeRowsAux_get?]
    cases hrow : ours.rows.get? oR with
    | none =>
        rw [cell, cellAt, hrow]
        rfl
    | some row =>
        rw [Option.map_some', Option.getD_some, mergeRowAux_get?]
        cases hv : row.get? oC with
        | none =>
            rw [cell, cellAt, hrow, Option.getD_some, hv]
            rfl
        | some v =>
            rw [Option.map_some', Option.getD_some]
            have hvv : v = cell ours oR oC := by
              rw [cell, cellAt, hrow, Option.getD_some, hv, Option.getD_some]
            simp only [Nat.zero_add]
            unfold cellMergeValue
            rw [hbo, hco]
            simp only
            rw [hbt, hct]
            simp only [hvv, hmc]
  exact ⟨hcount, hmem, hlen, hmerged⟩

/-- Witness for C2: the spec's §8 scenario
`base = [[id,val],[1,10],[2,20]]`, `ours = [[id,val],[1,99],[2,20]]`,
`theirs = [[id,val],[1,50],[2,20]]` with identity correspondences: exactly
one conflict at row position 0, column `val`, and the working value stays
`99`. -/
theorem merge_conflict_rule_witness :
    (["id", "val"] : List String).Nodup ∧
    cell ⟨["id", "val"], [["1", "10"], ["2", "20"]]⟩ 0 1
      ≠ cell ⟨["id", "val"], [["1", "99"], ["2", "20"]]⟩ 0 1 ∧
    ((mergerCore [(0, 0), (1, 1)] [(0, 0), (1, 1)] [(0, 0), (1, 1)] [(0, 0), (1, 1)]
        ⟨["id", "val"], [["1", "10"], ["2", "20"]]⟩
        ⟨["id", "val"], [["1", "99"], ["2", "20"]]⟩
        ⟨["id", "val"], [["1", "50"], ["2", "20"]]⟩).2.countP
          (conflictAt 0 (colName ⟨["id", "val"], [["1", "99"], ["2", "20"]]⟩ 1)) = 1) ∧
    cell (mergerCore [(0, 0), (1, 1)] [(0, 0), (1, 1)] [(0, 0), (1, 1)] [(0, 0), (1, 1)]
        ⟨["id", "val"], [["1", "10"], ["2", "20"]]⟩
        ⟨["id", "val"], [["1", "99"], ["2", "20"]]⟩
        ⟨["id", "val"], [["1", "50"], ["2", "20"]]⟩).1 0 1 = "99" := by
  have h := merge_conflict_rule [(0, 0), (1, 1)] [(0, 0), (1, 1)] [(0, 0), (1, 1)]
    [(0, 0), (1, 1)]
    ⟨["id", "val"], [["1", "10"], ["2", "20"]]⟩
    ⟨["id", "val"], [["1", "99"], ["2", "20"]]⟩
    ⟨["id", "val"], [["1", "50"], ["2", "20"]]⟩
    0 1 0 1 0 1
    (by decide) (by decide) (by decide) rfl rfl rfl rfl
    (by decide) (by decide) (by decide)
  refine ⟨by decide, by decide, h.1, ?_⟩
  rw [h.2.2.2]
  rfl

end Ledgit
